import Mathlib

/-!
Shallow embedding of the agno GPU film-grain pipeline.

The definitions below are transcribed from the repository's WGSL compute
shaders and TypeScript orchestration code:

* PCG32 RNG, uniform/Gaussian draws, coordinate seeding
  (shaders/common/rng.wgsl, shaders/grain/noise.wgsl),
* the autoregressive spatial filter (shaders/grain/ar-filter.wgsl),
* YCbCr conversion, separable Gaussian blur and final normalization
  (shaders/grain/rgb-to-ycbcr.wgsl, blur.wgsl, normalize.wgsl),
* the grain blend compute shader with patchwork tiling (shaders/blend.wgsl,
  seam-blended 3x3 variant),
* the halation threshold and upsample-blend passes
  (shaders/halation/threshold.wgsl, upsample-blend.wgsl),
* the GrainGenerator tile-cache logic (GrainGenerator.ts),
* the Renderer display-path selection and mipmap generation (Renderer.ts),
* the HalationProcessor enable gate (HalationProcessor.ts).

GPU f32 arithmetic is modelled by exact real arithmetic; 32-bit unsigned
integer arithmetic is modelled by natural numbers reduced mod 2^32.
-/

/-- RGB (or YCbCr) texel: three real channels. -/
abbrev Vec3 : Type := Fin 3 → ℝ

/-- RGBA texel: four real channels (used by the mipmap blit shader). -/
abbrev Vec4 : Type := Fin 4 → ℝ

/-- A 2-d texture, as a total function from texel coordinates to texels. -/
abbrev Tex : Type := ℕ → ℕ → Vec3

/-- WGSL vec3f constructor. -/
noncomputable def vec3 (a b c : ℝ) : Vec3 := ![a, b, c]

/-- WGSL scalar clamp: min(max(x, lo), hi). -/
noncomputable def clampR (x lo hi : ℝ) : ℝ := min (max x lo) hi

/-- WGSL clamp on i32 values. -/
def iclamp (x lo hi : ℤ) : ℤ := min (max x lo) hi

/-- WGSL mix(x, y, a) = x*(1-a) + y*a. -/
noncomputable def mixR (x y a : ℝ) : ℝ := x * (1 - a) + y * a

/-- WGSL smoothstep(e0, e1, x): cubic hermite of the clamped ramp. -/
noncomputable def smoothstepR (e0 e1 x : ℝ) : ℝ :=
  let t := clampR ((x - e0) / (e1 - e0)) 0 1
  t * t * (3 - 2 * t)

/-- WGSL dot on vec3f. -/
noncomputable def dot3 (a b : Vec3) : ℝ := a 0 * b 0 + a 1 * b 1 + a 2 * b 2

/-- BT.709 luminance coefficients (shared constant LUMA_COEFFS). -/
noncomputable def LUMA_COEFFS : Vec3 := vec3 0.2126 0.7152 0.0722

/-- Per-channel grain scales (blend.wgsl constant CHANNEL_SCALES). -/
noncomputable def CHANNEL_SCALES : Vec3 := vec3 1.2 1.0 1.5

/-- The u32 modulus. -/
def U32 : ℕ := 2 ^ 32

/-- The LCG state advance of the PCG32 generator (rng.wgsl, pcg):
the new value stored into the state pointer. -/
def pcg_next (old : ℕ) : ℕ := (old * 747796405 + 2891336453) % U32

/-- The intermediate word of the PCG32 output permutation (rng.wgsl, pcg). -/
def pcg_word (old : ℕ) : ℕ :=
  ((old >>> ((old >>> 28) + 4)) ^^^ old) * 277803737 % U32

/-- The PCG32 output (rng.wgsl, pcg): (word >> 22) ^ word. -/
def pcg_out (old : ℕ) : ℕ := (pcg_word old >>> 22) ^^^ pcg_word old

/-- rand_float (rng.wgsl): the PCG32 output divided by 4294967295,
as a function of the incoming generator state. -/
noncomputable def rand_float (state : ℕ) : ℝ := (pcg_out state : ℝ) / 4294967295

/-- One uniform draw: value together with the advanced state. -/
noncomputable def randFloatStep (state : ℕ) : ℝ × ℕ :=
  (rand_float state, pcg_next state)

/-- rand_gaussian (rng.wgsl): Box-Muller from two uniform draws, first draw
clamped away from 0; returns the value and the advanced state. -/
noncomputable def randGaussianStep (state : ℕ) : ℝ × ℕ :=
  let u1 := randFloatStep state
  let u2 := randFloatStep u1.2
  (Real.sqrt (-2 * Real.log (max u1.1 1e-10)) * Real.cos (6.283185307 * u2.1), u2.2)

/-- init_seed (rng.wgsl): deterministic per-pixel seed
pixel.x*1973 + pixel.y*9277 + frame_seed*26699 in u32 arithmetic. -/
def init_seed (px py frame_seed : ℕ) : ℕ :=
  (px * 1973 + py * 9277 + frame_seed * 26699) % U32

/-- Three successive Gaussian draws from an initial state
(the body of the noise shader main, shaders/grain/noise.wgsl). -/
noncomputable def gaussianTriple (state : ℕ) : Vec3 :=
  let g1 := randGaussianStep state
  let g2 := randGaussianStep g1.2
  let g3 := randGaussianStep g2.2
  vec3 g1.1 g2.1 g3.1

/-- Noise shader (shaders/grain/noise.wgsl, main): per-tile seed
seed + tile_index*1000 (u32), per-pixel state from init_seed, then three
Gaussian draws. -/
noncomputable def noisePixel (seed tileIndex px py : ℕ) : Vec3 :=
  gaussianTriple (init_seed px py ((seed + tileIndex * 1000) % U32))

/-- AR filter weight (shaders/grain/ar-filter.wgsl, get_ar_weight): zero
outside the lag radius, zero for non-causal offsets (below the current row,
or same row at/right of center), else 0.7 to the Euclidean distance. -/
noncomputable def get_ar_weight (dx dy ar_lag : ℤ) : ℝ :=
  if |dx| > ar_lag ∨ |dy| > ar_lag then 0
  else if dy > 0 then 0
  else if dy = 0 ∧ dx ≥ 0 then 0
  else (0.7 : ℝ) ^ Real.sqrt ((dx * dx + dy * dy : ℤ) : ℝ)

/-- Edge-clamped texture load at signed coordinates, for a w-by-h texture. -/
def loadClamped (input : Tex) (w h : ℕ) (x y : ℤ) : Vec3 :=
  input (iclamp x 0 ((w : ℤ) - 1)).toNat (iclamp y 0 ((h : ℤ) - 1)).toNat

/-- Sum of the AR weights actually accumulated by the ar-filter main loop
(only offsets with a strictly positive weight contribute). -/
noncomputable def arWeightSum (lag : ℕ) : ℝ :=
  ∑ dy ∈ Finset.Icc (-(lag : ℤ)) lag, ∑ dx ∈ Finset.Icc (-(lag : ℤ)) lag,
    if 0 < get_ar_weight dx dy lag then get_ar_weight dx dy lag else 0

/-- Weighted sum of causal neighbors accumulated by the ar-filter main loop,
with edge-clamped loads. -/
noncomputable def arNeighborSum (input : Tex) (w h : ℕ) (lag : ℕ) (x y : ℕ)
    (i : Fin 3) : ℝ :=
  ∑ dy ∈ Finset.Icc (-(lag : ℤ)) lag, ∑ dx ∈ Finset.Icc (-(lag : ℤ)) lag,
    if 0 < get_ar_weight dx dy lag then
      loadClamped input w h ((x : ℤ) + dx) ((y : ℤ) + dy) i * get_ar_weight dx dy lag
    else 0

/-- AR filter pass (shaders/grain/ar-filter.wgsl, main): normalized causal
neighbor sum scaled to ar_strength, plus the original sample scaled by
sqrt(1 - ar_strength^2). -/
noncomputable def arFilterPixel (input : Tex) (w h : ℕ) (ar_strength : ℝ)
    (ar_lag : ℕ) (x y : ℕ) : Vec3 := fun i =>
  arNeighborSum input w h ar_lag x y i * (ar_strength / max (arWeightSum ar_lag) 0.001)
    + input x y i * Real.sqrt (1 - ar_strength * ar_strength)

/-- rgb_to_ycbcr (shaders/grain/rgb-to-ycbcr.wgsl). -/
noncomputable def rgb_to_ycbcr (rgb : Vec3) : Vec3 :=
  vec3 (0.2126 * rgb 0 + 0.7152 * rgb 1 + 0.0722 * rgb 2)
       (-0.1146 * rgb 0 - 0.3854 * rgb 1 + 0.5000 * rgb 2)
       (0.5000 * rgb 0 - 0.4542 * rgb 1 - 0.0458 * rgb 2)

/-- ycbcr_to_rgb (shaders/grain/normalize.wgsl). -/
noncomputable def ycbcr_to_rgb (ycbcr : Vec3) : Vec3 :=
  vec3 (ycbcr 0 + 1.5748 * ycbcr 2)
       (ycbcr 0 - 0.1873 * ycbcr 1 - 0.4681 * ycbcr 2)
       (ycbcr 0 + 1.8556 * ycbcr 1)

/-- Separable Gaussian blur pass (shaders/grain/blur.wgsl, main):
edge-clamped weighted average along one axis, normalized by the weight
sum; when channel < 3 only that channel of the center texel is replaced. -/
noncomputable def blurPass (input : Tex) (w h : ℕ) (kernel_radius : ℕ)
    (sigma : ℝ) (direction : ℕ) (channel : ℕ) : Tex := fun x y =>
  let center := input x y
  let sigma2 := 2 * sigma * sigma
  let weight_sum : ℝ :=
    ∑ i ∈ Finset.Icc (-(kernel_radius : ℤ)) kernel_radius,
      Real.exp (-((i * i : ℤ) : ℝ) / sigma2)
  let sums : Vec3 := fun c =>
    ∑ i ∈ Finset.Icc (-(kernel_radius : ℤ)) kernel_radius,
      (if direction = 0 then
        loadClamped input w h ((x : ℤ) + i) (y : ℤ) c
      else
        loadClamped input w h (x : ℤ) ((y : ℤ) + i) c) * Real.exp (-((i * i : ℤ) : ℝ) / sigma2)
  let result : Vec3 := fun c => sums c / weight_sum
  if channel < 3 then
    fun c =>
      if channel = 0 then (if c = 0 then result c else center c)
      else if channel = 1 then (if c = 1 then result c else center c)
      else (if c = 2 then result c else center c)
  else result

/-- Normalize pass (shaders/grain/normalize.wgsl, main): YCbCr back to RGB,
scale, bias to mid-gray, clamp to [0,1]. -/
noncomputable def normalizePass (input : Tex) (scale : ℝ) : Tex := fun x y =>
  fun i => clampR (ycbcr_to_rgb (input x y) i * scale + 0.5) 0 1

/-- Pointwise rgb-to-ycbcr pass (shaders/grain/rgb-to-ycbcr.wgsl, main). -/
noncomputable def ycbcrPass (input : Tex) : Tex := fun x y => rgb_to_ycbcr (input x y)

/-- AR filter pass over a whole w-by-h texture. -/
noncomputable def arPass (input : Tex) (w h : ℕ) (ar_strength : ℝ) (ar_lag : ℕ) : Tex :=
  fun x y => arFilterPixel input w h ar_strength ar_lag x y

/-- Per-pixel value of one generated grain tile
(GrainGenerator.generateSingleTile): noise, AR filter with strength 0.95,
YCbCr, per-channel separable blurs with the fixed specs of getBlurSpecs
(Y: radius 1 sigma 0.8, Cb: radius 7 sigma 3.75, Cr: radius 5 sigma 2.75),
then normalize with scale 0.15. Tiles are 256x256. -/
noncomputable def genTile (seed arLag tileIndex : ℕ) : Tex :=
  let t0 : Tex := fun x y => noisePixel seed tileIndex x y
  let t1 := arPass t0 256 256 0.95 arLag
  let t2 := ycbcrPass t1
  let t3 := blurPass t2 256 256 1 0.8 0 0
  let t4 := blurPass t3 256 256 1 0.8 1 0
  let t5 := blurPass t4 256 256 7 3.75 0 1
  let t6 := blurPass t5 256 256 7 3.75 1 1
  let t7 := blurPass t6 256 256 5 2.75 0 2
  let t8 := blurPass t7 256 256 5 2.75 1 2
  normalizePass t8 0.15

/-- GrainParams (GrainGenerator.ts): seed, sampling scale, AR lag. -/
structure GrainParamsU where
  seed : ℕ
  grainSize : ℝ
  arLag : ℕ

/-- Cache state of the GrainGenerator: the current tile array (8 tiles)
and the params of the last completed generation. -/
structure GenState where
  grainTileArray : Option (Fin 8 → Tex)
  lastParams : Option GrainParamsU

/-- GrainGenerator.tilesValid: tiles exist and the cached params match on
seed and arLag; grainSize is deliberately not checked. -/
def tilesValid (s : GenState) (p : GrainParamsU) : Bool :=
  match s.grainTileArray, s.lastParams with
  | some _, some lp => decide (lp.seed = p.seed) && decide (lp.arLag = p.arLag)
  | _, _ => false

/-- GrainGenerator.generateTiles: return the cached array when tilesValid,
otherwise regenerate all 8 tiles and record the params. The boolean of the
result records whether the generation loop ran. -/
noncomputable def generateTiles (s : GenState) (p : GrainParamsU) :
    GenState × (Fin 8 → Tex) × Bool :=
  match s.grainTileArray, tilesValid s p with
  | some tiles, true => (s, tiles, false)
  | _, _ =>
    let tiles : Fin 8 → Tex := fun i => genTile p.seed p.arLag i
    ({ grainTileArray := some tiles, lastParams := some p }, tiles, true)

/-- WGSL u32(x) bitcast of an i32 value. -/
def u32ofI32 (x : ℤ) : ℕ := (x % (2 ^ 32 : ℤ)).toNat

/-- WGSL trunc-toward-zero, as a real number. -/
noncomputable def truncR (x : ℝ) : ℝ := if 0 ≤ x then (⌊x⌋ : ℝ) else (⌈x⌉ : ℝ)

/-- WGSL % on f32: x - y * trunc(x / y). -/
noncomputable def fmod (x y : ℝ) : ℝ := x - y * truncR (x / y)

/-- BlendParams (blend.wgsl struct): blend controls plus image dims and the
patchwork seed. -/
structure BlendParamsU where
  strength : ℝ
  saturation : ℝ
  toe : ℝ
  midtone_bias : ℝ
  grain_size : ℝ
  image_width : ℝ
  image_height : ℝ
  seed : ℕ

/-- The grain tile array as sampled by the blend shader: tile layer index
and filtered uv lookup. -/
abbrev TileSet : Type := ℕ → ℝ → ℝ → Vec3

/-- Patchwork hash (blend.wgsl, hash): xor-fold of the biased region
coordinates in u32 arithmetic. -/
def hashPW (seed : ℕ) (x y : ℤ) : ℕ :=
  let h1 := seed ^^^ (u32ofI32 (x + 10000) * 1973 % U32)
  let h2 := h1 ^^^ (u32ofI32 (y + 10000) * 9277 % U32)
  let h3 := h2 * 2654435761 % U32
  h3 ^^^ (h3 >>> 16)

/-- sample_region_grain (blend.wgsl): hash-selected tile and offset for a
region, wrapped sampling of the chosen tile. TILE_SIZE = 256,
REGION_SIZE = 512. -/
noncomputable def sample_region_grain (tiles : TileSet) (p : BlendParamsU)
    (scaled_pos : ℝ × ℝ) (region_x region_y : ℤ) : Vec3 :=
  let tile_index := hashPW p.seed region_x region_y % 8
  let offset_hash := hashPW ((p.seed + 1) % U32) region_x region_y
  let offset_x := ((offset_hash &&& 0xFF : ℕ) : ℝ) / 255 * 256
  let offset_y := ((offset_hash >>> 8 &&& 0xFF : ℕ) : ℝ) / 255 * 256
  let local_x := scaled_pos.1 - (region_x : ℝ) * 512 + offset_x
  let local_y := scaled_pos.2 - (region_y : ℝ) * 512 + offset_y
  let wrapped_x := fmod (fmod local_x 256 + 256) 256
  let wrapped_y := fmod (fmod local_y 256 + 256) 256
  tiles tile_index ((wrapped_x + 0.5) / 256) ((wrapped_y + 0.5) / 256)

/-- blend_weight (blend.wgsl): smoothstep falloff of the distance from a
region center, saturating inside the region. REGION_SIZE = 512. -/
noncomputable def blend_weight (scaled_pos : ℝ × ℝ) (region_x region_y : ℤ)
    (blend_size : ℝ) : ℝ :=
  let half_size := 512 * 0.5 + blend_size
  let edge_x := half_size - |scaled_pos.1 - ((region_x : ℝ) + 0.5) * 512|
  let edge_y := half_size - |scaled_pos.2 - ((region_y : ℝ) + 0.5) * 512|
  smoothstepR 0 blend_size edge_x * smoothstepR 0 blend_size edge_y

/-- The scaled sampling position of a pixel (blend.wgsl,
sample_grain_patchwork): pixel position divided by grain_size. -/
noncomputable def scaledPos (p : BlendParamsU) (pixel_pos : ℝ × ℝ) : ℝ × ℝ :=
  (pixel_pos.1 / p.grain_size, pixel_pos.2 / p.grain_size)

/-- Total blend weight accumulated over the 3x3 region neighborhood by
sample_grain_patchwork; only weights above 0.001 are accumulated.
BLEND_PIXELS = 64. -/
noncomputable def accWeight (p : BlendParamsU) (pixel_pos : ℝ × ℝ) : ℝ :=
  let sp := scaledPos p pixel_pos
  let blend_size := 64 / p.grain_size
  let region_x : ℤ := ⌊sp.1 / 512⌋
  let region_y : ℤ := ⌊sp.2 / 512⌋
  ∑ dy ∈ Finset.Icc (-1 : ℤ) 1, ∑ dx ∈ Finset.Icc (-1 : ℤ) 1,
    (if blend_weight sp (region_x + dx) (region_y + dy) blend_size > 0.001 then
      blend_weight sp (region_x + dx) (region_y + dy) blend_size
    else 0)

/-- Grain accumulated over the 3x3 region neighborhood by
sample_grain_patchwork, weighted by the blend weights above 0.001. -/
noncomputable def accGrain (tiles : TileSet) (p : BlendParamsU)
    (pixel_pos : ℝ × ℝ) : Vec3 := fun i =>
  let sp := scaledPos p pixel_pos
  let blend_size := 64 / p.grain_size
  let region_x : ℤ := ⌊sp.1 / 512⌋
  let region_y : ℤ := ⌊sp.2 / 512⌋
  ∑ dy ∈ Finset.Icc (-1 : ℤ) 1, ∑ dx ∈ Finset.Icc (-1 : ℤ) 1,
    (if blend_weight sp (region_x + dx) (region_y + dy) blend_size > 0.001 then
      sample_region_grain tiles p sp (region_x + dx) (region_y + dy) i
        * blend_weight sp (region_x + dx) (region_y + dy) blend_size
    else 0)

/-- sample_grain_patchwork (blend.wgsl, seam-blended variant): weighted
average of the 3x3 neighborhood samples, neutral 0.5 when the accumulated
weight is zero. -/
noncomputable def sample_grain_patchwork (tiles : TileSet) (p : BlendParamsU)
    (pixel_pos : ℝ × ℝ) : Vec3 :=
  if accWeight p pixel_pos > 0 then
    fun i => accGrain tiles p pixel_pos i / accWeight p pixel_pos
  else fun _ => 0.5

/-- luminance_response (blend.wgsl): midtone emphasis curve
clamp(4 L (1-L), 0, 1) ^ (1 / max(bias, 0.001)). -/
noncomputable def luminance_response (lum bias : ℝ) : ℝ :=
  clampR (4 * lum * (1 - lum)) 0 1 ^ (1 / max bias 0.001)

/-- The response-modulated multiplicative grain factor of the blend shader
main: deviation scaled by strength and channel scales, desaturated toward
the green channel, modulated by the luminance response. -/
noncomputable def grain_final (image grain_raw : Vec3) (p : BlendParamsU) : Vec3 :=
  let grain : Vec3 := fun i => 1 + (grain_raw i - 0.5) * p.strength * 0.5 * CHANNEL_SCALES i
  let grain2 : Vec3 := fun i => mixR (grain 1) (grain i) p.saturation
  let response := luminance_response (dot3 image LUMA_COEFFS) p.midtone_bias
  fun i => 1 + (grain2 i - 1) * response

/-- Per-pixel output of the blend shader main: multiplicative blend with toe
lift, clamped to [0,1]. -/
noncomputable def blendPixel (image grain_raw : Vec3) (p : BlendParamsU) : Vec3 :=
  fun i =>
    clampR ((1 - (1 - image i) * grain_final image grain_raw p i) * (1 - p.toe) + p.toe) 0 1

/-- Blend shader main for an in-bounds pixel: load the image texel, sample
the patchwork grain at the pixel position, blend. -/
noncomputable def blendMain (tiles : TileSet) (input : Tex) (p : BlendParamsU)
    (x y : ℕ) : Vec3 :=
  blendPixel (input x y) (sample_grain_patchwork tiles p ((x : ℝ), (y : ℝ))) p

/-- halation_mask (shaders/halation/threshold.wgsl): squared soft threshold
with falloff max(0.15, 1 - threshold). -/
noncomputable def halation_mask (luminance threshold : ℝ) : ℝ :=
  let falloff := max 0.15 (1 - threshold)
  let mask := clampR ((luminance - threshold) / falloff) 0 1
  mask * mask

/-- Threshold pass main (shaders/halation/threshold.wgsl): stores the masked
color and the mask. -/
noncomputable def thresholdPixel (image : Vec3) (threshold : ℝ) : Vec3 × ℝ :=
  let lum := dot3 image LUMA_COEFFS
  let mask := halation_mask lum threshold
  (fun i => image i * mask, mask)

/-- Upsample-blend pass main (shaders/halation/upsample-blend.wgsl) for one
pixel, with the bilinearly upsampled blurred halation sample given: red-shifted
glow added with strength scaled by 2, clamped to [0,1]. -/
noncomputable def upsampleBlendPixel (image halation_raw : Vec3) (strength : ℝ) : Vec3 :=
  let glow_lum := dot3 halation_raw LUMA_COEFFS
  let halation_color := vec3 (glow_lum * 1.0) (glow_lum * 0.15) 0
  fun i => clampR (image i + halation_color i * strength * 2.0) 0 1

/-- HalationParams (HalationProcessor.ts). -/
structure HalationParamsU where
  enabled : Bool
  strength : ℝ
  threshold : ℝ
  radius : ℝ

/-- HalationProcessor.isEnabled. -/
def isEnabled (p : HalationParamsU) : Bool := p.enabled

/-- The texture the Renderer ends up displaying (Renderer.render). -/
inductive DisplayTex where
  | original : DisplayTex
  | blendOut : DisplayTex
  | debugTile : DisplayTex
  | halationOf : DisplayTex → DisplayTex
deriving DecidableEq

/-- Whether the halation processor was invoked to produce a texture. -/
def usesHalation : DisplayTex → Bool
  | .halationOf _ => true
  | _ => false

/-- The resource/flag state Renderer.render branches on. -/
structure RenderFlags where
  showGrainTile : Bool
  hasGrainTiles : Bool
  hasImage : Bool
  blendEnabled : Bool
  hasBlendOutput : Bool
  hasGrainParams : Bool
  halationReady : Bool

/-- Display-path selection of Renderer.render: debug tile view first, then
nothing without an image, then grain blend when active, with halation
applied on top only when the processor is enabled and ready. -/
def renderDisplayed (f : RenderFlags) (hp : HalationParamsU) : Option DisplayTex :=
  if f.showGrainTile && f.hasGrainTiles then some .debugTile
  else if !f.hasImage then none
  else if f.blendEnabled && f.hasGrainTiles && f.hasBlendOutput && f.hasGrainParams then
    (if isEnabled hp && f.halationReady then some (.halationOf .blendOut) else some .blendOut)
  else if isEnabled hp && f.halationReady then some (.halationOf .original)
  else some .original

/-- Mip level count chosen by Renderer.uploadImage:
floor(log2(max(width, height))) + 1. -/
noncomputable def mipLevelCount (w h : ℕ) : ℕ :=
  (⌊Real.logb 2 ((max w h : ℕ) : ℝ)⌋ + 1).toNat

/-- Dimensions of each mip level, as walked by Renderer.generateMipmaps:
halved at every step, floored, never below 1. -/
def mipDims (w h : ℕ) : ℕ → ℕ × ℕ
  | 0 => (w, h)
  | n + 1 => (max 1 ((mipDims w h n).1 / 2), max 1 ((mipDims w h n).2 / 2))

/-- The mipmap blit kernel of Renderer.generateMipmaps: average of the 2x2
source block at twice the destination coordinates. -/
noncomputable def mipPixel (src : ℕ → ℕ → Vec4) (x y : ℕ) : Vec4 := fun c =>
  (src (2 * x) (2 * y) c + src (2 * x + 1) (2 * y) c
    + src (2 * x) (2 * y + 1) c + src (2 * x + 1) (2 * y + 1) c) * 0.25

lemma pcg_word_lt (s : ℕ) : pcg_word s < U32 :=
  Nat.mod_lt _ (by norm_num [U32])

lemma pcg_out_lt (s : ℕ) : pcg_out s < U32 := by
  have h1 : pcg_word s >>> 22 < 2 ^ 32 := by
    rw [Nat.shiftRight_eq_div_pow]
    exact lt_of_le_of_lt (Nat.div_le_self _ _) (pcg_word_lt s)
  have h2 : pcg_word s < 2 ^ 32 := pcg_word_lt s
  exact Nat.xor_lt_two_pow h1 h2

lemma generateTiles_of_valid (s : GenState) (p : GrainParamsU) (T : Fin 8 → Tex)
    (hT : s.grainTileArray = some T) (hv : tilesValid s p = true) :
    generateTiles s p = (s, T, false) := by
  unfold generateTiles
  rw [hT, hv]

lemma generateTiles_of_invalid (s : GenState) (p : GrainParamsU)
    (h : tilesValid s p = false) :
    generateTiles s p =
      ({ grainTileArray := some fun i : Fin 8 => genTile p.seed p.arLag i,
         lastParams := some p },
       (fun i : Fin 8 => genTile p.seed p.arLag i), true) := by
  unfold generateTiles
  rw [h]
  cases hA : s.grainTileArray <;> rfl

/-- C7 counterexample: at generator state 515875080 (hex 1EBFA108) the PCG32
output is 4294967295, so rand_float returns exactly 1 and is not strictly
below 1. -/
theorem rand_float_reaches_one : ¬ rand_float 515875080 < 1 := by
  have h : pcg_out 515875080 = 4294967295 := by decide
  simp [rand_float, h]

/-- C7 (amended): rand_float always lies in the closed interval [0, 1]; the
upper bound 1 is attained, so the interval cannot be half-open. -/
theorem rand_float_mem_unit (state : ℕ) :
    0 ≤ rand_float state ∧ rand_float state ≤ 1 := by
  constructor
  · exact div_nonneg (Nat.cast_nonneg _) (by norm_num)
  · rw [rand_float, div_le_one (by norm_num)]
    have h : pcg_out state ≤ 4294967295 :=
      Nat.lt_succ_iff.mp (by simpa [U32] using pcg_out_lt state)
    exact_mod_cast h

/-- C1: after a completed generation recorded params pp and tile array T, a
second generateTiles call with the same seed and arLag (any grainSize)
returns the cached array with no regeneration, while a call whose seed or
arLag differs regenerates all 8 tiles and records the new params. -/
theorem generateTiles_cache (s : GenState) (T : Fin 8 → Tex) (pp q : GrainParamsU)
    (hT : s.grainTileArray = some T) (hP : s.lastParams = some pp) :
    ((q.seed = pp.seed ∧ q.arLag = pp.arLag) → generateTiles s q = (s, T, false)) ∧
    ((q.seed ≠ pp.seed ∨ q.arLag ≠ pp.arLag) →
      generateTiles s q =
        ({ grainTileArray := some fun i : Fin 8 => genTile q.seed q.arLag i,
           lastParams := some q },
         (fun i : Fin 8 => genTile q.seed q.arLag i), true)) := by
  constructor
  · intro h
    have hv : tilesValid s q = true := by
      simp [tilesValid, hT, hP, h.1.symm, h.2.symm]
    exact generateTiles_of_valid s q T hT hv
  · intro h
    have hv : tilesValid s q = false := by
      simp only [tilesValid, hT, hP, Bool.and_eq_false_iff, decide_eq_false_iff_not]
    
      rcases h with h | h
      · exact Or.inl fun e => h e.symm
      · exact Or.inr fun e => h e.symm
    exact generateTiles_of_invalid s q hv

/-- A generator state holding a completed generation for seed 1, arLag 2,
grainSize 1: used to witness the cache behavior at concrete params. -/
noncomputable def sampleGenState : GenState :=
  { grainTileArray := some fun i : Fin 8 => genTile 1 2 i,
    lastParams := some { seed := 1, grainSize := 1, arLag := 2 } }

/-- C1 witness: at the concrete state above, a call with the same seed and
arLag but grainSize 7/2 hits the cache, and a call with seed 2 regenerates
all 8 tiles. -/
theorem generateTiles_cache_witness :
    generateTiles sampleGenState { seed := 1, grainSize := 7/2, arLag := 2 } =
      (sampleGenState, (fun i : Fin 8 => genTile 1 2 i), false) ∧
    generateTiles sampleGenState { seed := 2, grainSize := 1, arLag := 2 } =
      ({ grainTileArray := some fun i : Fin 8 => genTile 2 2 i,
         lastParams := some { seed := 2, grainSize := 1, arLag := 2 } },
       (fun i : Fin 8 => genTile 2 2 i), true) := by
  constructor
  · exact (generateTiles_cache sampleGenState (fun i : Fin 8 => genTile 1 2 i)
      { seed := 1, grainSize := 1, arLag := 2 } { seed := 1, grainSize := 7/2, arLag := 2 }
      rfl rfl).1 ⟨rfl, rfl⟩
  · exact (generateTiles_cache sampleGenState (fun i : Fin 8 => genTile 1 2 i)
      { seed := 1, grainSize := 1, arLag := 2 } { seed := 2, grainSize := 1, arLag := 2 }
      rfl rfl).2 (Or.inl (by norm_num))

/-- C8: tile generation is deterministic. Two generateTiles runs from any two
states that do not already cache the requested params produce identical tile
arrays (each tile the pure function genTile of seed, arLag and tile index),
and each noise texel is the pure function of its coordinates and the
per-tile seed seed + tileIndex*1000 through
init_seed = x*1973 + y*9277 + tile_seed*26699 mod 2^32. -/
theorem tileGeneration_deterministic (s1 s2 : GenState) (p : GrainParamsU)
    (h1 : tilesValid s1 p = false) (h2 : tilesValid s2 p = false)
    (seed idx px py : ℕ) :
    (generateTiles s1 p).2.1 = (generateTiles s2 p).2.1 ∧
    noisePixel seed idx px py =
      gaussianTriple
        ((px * 1973 + py * 9277 + ((seed + idx * 1000) % 2 ^ 32) * 26699) % 2 ^ 32) := by
  refine ⟨?_, rfl⟩
  rw [generateTiles_of_invalid s1 p h1, generateTiles_of_invalid s2 p h2]

/-- C8 witness: the determinism theorem applied to two concrete fresh states
and concrete noise coordinates. -/
theorem tileGeneration_deterministic_witness :
    (generateTiles ⟨none, none⟩ { seed := 42, grainSize := 1, arLag := 2 }).2.1 =
      (generateTiles ⟨none, some { seed := 7, grainSize := 1, arLag := 1 }⟩
        { seed := 42, grainSize := 1, arLag := 2 }).2.1 ∧
    noisePixel 42 3 5 6 =
      gaussianTriple
        ((5 * 1973 + 6 * 9277 + ((42 + 3 * 1000) % 2 ^ 32) * 26699) % 2 ^ 32) := by
  exact tileGeneration_deterministic ⟨none, none⟩
    ⟨none, some { seed := 7, grainSize := 1, arLag := 1 }⟩
    { seed := 42, grainSize := 1, arLag := 2 } rfl rfl 42 3 5 6

lemma clampR_of_mem {x : ℝ} (h0 : 0 ≤ x) (h1 : x ≤ 1) : clampR x 0 1 = x := by
  unfold clampR
  rw [max_eq_left h0, min_eq_left h1]

lemma grain_final_of_strength_zero (image grain_raw : Vec3) (p : BlendParamsU)
    (h : p.strength = 0) (i : Fin 3) : grain_final image grain_raw p i = 1 := by
  simp [grain_final, h, mixR]

lemma blendPixel_strength_zero (image grain_raw : Vec3) (p : BlendParamsU)
    (hs : p.strength = 0) (i : Fin 3) :
    blendPixel image grain_raw p i =
      clampR ((1 - (1 - image i)) * (1 - p.toe) + p.toe) 0 1 := by
  simp only [blendPixel, grain_final_of_strength_zero _ _ _ hs, mul_one]

/-- The blend parameters of the C2 counterexample: strength 0 but toe 1/2. -/
noncomputable def cexBlendParams : BlendParamsU :=
  { strength := 0, saturation := 1, toe := 1/2, midtone_bias := 1, grain_size := 1,
    image_width := 4, image_height := 4, seed := 0 }

/-- C2 counterexample: with strength = 0 but toe = 1/2, the blend of an
all-black pixel outputs 1/2, not the input value 0 — the toe lift is applied
independently of the grain strength. -/
theorem blend_strength_zero_not_identity :
    blendMain (fun _ _ _ => fun _ => 1) (fun _ _ => fun _ => 0) cexBlendParams 0 0 0 ≠
      (fun _ _ => fun _ => (0 : ℝ)) 0 0 0 := by
  simp only [blendMain]
  rw [blendPixel_strength_zero _ _ _ rfl]
  norm_num [cexBlendParams, clampR]

/-- C2 (amended): with strength = 0 and toe = 0, the blend output equals the
input pixel exactly, for input values in [0,1], regardless of tile content
and of the remaining parameters. -/
theorem blend_strength_zero_identity (tiles : TileSet) (input : Tex)
    (p : BlendParamsU) (x y : ℕ) (hs : p.strength = 0) (ht : p.toe = 0)
    (hin : ∀ i, 0 ≤ input x y i ∧ input x y i ≤ 1) :
    blendMain tiles input p x y = input x y := by
  funext i
  simp only [blendMain, blendPixel, grain_final_of_strength_zero _ _ _ hs, ht]
  have h1 : (1 - (1 - input x y i) * 1) * (1 - 0) + 0 = input x y i := by ring
  rw [h1, clampR_of_mem (hin i).1 (hin i).2]

/-- C2 witness: the amended identity applied at a constant mid-gray input,
constant tiles, strength 0, toe 0, saturation 3/4, midtone bias 1. -/
theorem blend_strength_zero_identity_witness :
    blendMain (fun _ _ _ => fun _ => 1) (fun _ _ => fun _ => 1/2)
      { strength := 0, saturation := 3/4, toe := 0, midtone_bias := 1, grain_size := 1,
        image_width := 4, image_height := 4, seed := 0 } 0 0 = (fun _ => (1/2 : ℝ)) := by
  exact blend_strength_zero_identity (fun _ _ _ => fun _ => 1) (fun _ _ => fun _ => 1/2)
    { strength := 0, saturation := 3/4, toe := 0, midtone_bias := 1, grain_size := 1,
      image_width := 4, image_height := 4, seed := 0 } 0 0 rfl rfl
    (fun i => by norm_num)

/-- The all-black input pixel. -/
noncomputable def blackPixel : Vec3 := fun _ => 0

lemma dot3_black : dot3 blackPixel LUMA_COEFFS = 0 := by
  simp [dot3, blackPixel]

lemma luminance_response_zero (bias : ℝ) : luminance_response 0 bias = 0 := by
  have he : (1 : ℝ) / max bias 0.001 ≠ 0 :=
    one_div_ne_zero (ne_of_gt (lt_of_lt_of_le (by norm_num) (le_max_right _ _)))
  unfold luminance_response
  have h0 : clampR (4 * 0 * (1 - 0)) 0 1 = 0 := by norm_num [clampR]
  rw [h0, Real.zero_rpow he]

lemma grain_final_black (grain_raw : Vec3) (p : BlendParamsU) (i : Fin 3) :
    grain_final blackPixel grain_raw p i = 1 := by
  unfold grain_final
  rw [dot3_black, luminance_response_zero]
  ring

/-- C3: for an all-black input pixel the blend output is exactly the claimed
expression clamp((1-(1-0)*grainFactor)*(1-toe)+toe, 0, 1); at a black pixel
the code's response-modulated grain factor is 1 (the luminance response
vanishes at L = 0), so for toe values increasing from 0 within [0,1] the
output is the toe itself and is strictly increasing, for every grain sample
and every remaining parameter setting. -/
theorem blend_black_toe_monotone (grain_raw : Vec3) (p : BlendParamsU)
    (t1 t2 : ℝ) (i : Fin 3) (h0 : 0 ≤ t1) (h12 : t1 < t2) (h1 : t2 ≤ 1) :
    blendPixel blackPixel grain_raw { p with toe := t1 } i =
      clampR ((1 - (1 - 0) * grain_final blackPixel grain_raw { p with toe := t1 } i)
        * (1 - t1) + t1) 0 1 ∧
    grain_final blackPixel grain_raw { p with toe := t1 } i = 1 ∧
    blendPixel blackPixel grain_raw { p with toe := t1 } i <
      blendPixel blackPixel grain_raw { p with toe := t2 } i := by
  have key : ∀ t : ℝ, 0 ≤ t → t ≤ 1 →
      blendPixel blackPixel grain_raw { p with toe := t } i = t := by
    intro t ht0 ht1
    simp only [blendPixel, grain_final_black]
    have h : (1 - (1 - blackPixel i) * 1) * (1 - t) + t = t := by
      simp [blackPixel]
    rw [h, clampR_of_mem ht0 ht1]
  refine ⟨?_, grain_final_black grain_raw _ i, ?_⟩
  · rw [grain_final_black grain_raw _ i, key t1 h0 (le_of_lt (lt_of_lt_of_le h12 h1))]
    simp [blackPixel, blendPixel, grain_final_black]
    rw [clampR_of_mem h0 (le_of_lt (lt_of_lt_of_le h12 h1))]
  · rw [key t1 h0 (le_of_lt (lt_of_lt_of_le h12 h1)), key t2 (le_of_lt (lt_of_le_of_lt h0 h12)) h1]
    exact h12

/-- C3 witness: the black-pixel toe theorem at a concrete grain sample and
parameters, with toe raised from 0 to 1/2. -/
theorem blend_black_toe_monotone_witness :
    blendPixel blackPixel (fun _ => 7/10)
        { strength := 1, saturation := 1, toe := 0, midtone_bias := 1, grain_size := 1,
          image_width := 4, image_height := 4, seed := 0 } 0 =
      clampR ((1 - (1 - 0) * grain_final blackPixel (fun _ => 7/10)
        { strength := 1, saturation := 1, toe := 0, midtone_bias := 1, grain_size := 1,
          image_width := 4, image_height := 4, seed := 0 } 0) * (1 - 0) + 0) 0 1 ∧
    grain_final blackPixel (fun _ => 7/10)
        { strength := 1, saturation := 1, toe := 0, midtone_bias := 1, grain_size := 1,
          image_width := 4, image_height := 4, seed := 0 } 0 = 1 ∧
    blendPixel blackPixel (fun _ => 7/10)
        { strength := 1, saturation := 1, toe := 0, midtone_bias := 1, grain_size := 1,
          image_width := 4, image_height := 4, seed := 0 } 0 <
      blendPixel blackPixel (fun _ => 7/10)
        { strength := 1, saturation := 1, toe := 1/2, midtone_bias := 1, grain_size := 1,
          image_width := 4, image_height := 4, seed := 0 } 0 := by
  exact blend_black_toe_monotone (fun _ => 7/10)
    { strength := 1, saturation := 1, toe := 0, midtone_bias := 1, grain_size := 1,
      image_width := 4, image_height := 4, seed := 0 } 0 (1/2) 0
    (by norm_num) (by norm_num) (by norm_num)

/-- C5: the threshold pass stores (image * mask, mask) where mask is the
squared clamped soft threshold of the BT.709 luminance, with falloff
max(0.15, 1 - threshold), for every threshold in [0, 1]. -/
theorem threshold_pass_formula (image : Vec3) (t : ℝ) (h0 : 0 ≤ t) (h1 : t ≤ 1) :
    thresholdPixel image t =
      ((fun i => image i *
          clampR ((0.2126 * image 0 + 0.7152 * image 1 + 0.0722 * image 2 - t)
            / max 0.15 (1 - t)) 0 1 ^ 2),
       clampR ((0.2126 * image 0 + 0.7152 * image 1 + 0.0722 * image 2 - t)
            / max 0.15 (1 - t)) 0 1 ^ 2) := by
  have hd : dot3 image LUMA_COEFFS =
      0.2126 * image 0 + 0.7152 * image 1 + 0.0722 * image 2 := by
    simp [dot3, LUMA_COEFFS, vec3]
    ring
  have hm : halation_mask (dot3 image LUMA_COEFFS) t =
      clampR ((0.2126 * image 0 + 0.7152 * image 1 + 0.0722 * image 2 - t)
        / max 0.15 (1 - t)) 0 1 ^ 2 := by
    unfold halation_mask
    rw [hd, pow_two]
  show (fun i => image i * halation_mask (dot3 image LUMA_COEFFS) t,
        halation_mask (dot3 image LUMA_COEFFS) t) = _
  rw [hm]

/-- C5 witness: the threshold formula at a concrete white pixel and
threshold 1/2. -/
theorem threshold_pass_formula_witness :
    thresholdPixel (fun _ => 1) (1/2) =
      ((fun i => (fun _ => (1 : ℝ)) i *
          clampR ((0.2126 * (fun _ => (1:ℝ)) 0 + 0.7152 * (fun _ => (1:ℝ)) 1
              + 0.0722 * (fun _ => (1:ℝ)) 2 - 1/2)
            / max 0.15 (1 - 1/2)) 0 1 ^ 2),
       clampR ((0.2126 * (fun _ => (1:ℝ)) 0 + 0.7152 * (fun _ => (1:ℝ)) 1
              + 0.0722 * (fun _ => (1:ℝ)) 2 - 1/2)
            / max 0.15 (1 - 1/2)) 0 1 ^ 2) := by
  exact threshold_pass_formula (fun _ => 1) (1/2) (by norm_num) (by norm_num)

/-- C4: halation is a no-op when disabled or at zero strength. When the
processor is disabled, Renderer.render never invokes it and the displayed
texture carries no halation; when it runs with strength 0, the
upsample-blend pass writes clamp(image + haloColor*0, 0, 1) = image at every
pixel with in-range input. -/
theorem halation_noop (f : RenderFlags) (hp : HalationParamsU) (t : DisplayTex)
    (image halation_raw : Vec3) :
    (hp.enabled = false → renderDisplayed f hp = some t → usesHalation t = false) ∧
    (hp.strength = 0 → (∀ i, 0 ≤ image i ∧ image i ≤ 1) →
      upsampleBlendPixel image halation_raw hp.strength = image) := by
  constructor
  · intro he hr
    simp only [renderDisplayed, isEnabled, he, Bool.false_and, Bool.false_eq_true,
      if_false] at hr
    split at hr
    · cases hr; rfl
    · split at hr
      · exact absurd hr (by simp)
      · split at hr
        · cases hr; rfl
        · cases hr; rfl
  · intro hs hin
    funext i
    simp only [upsampleBlendPixel, hs, mul_zero, zero_mul, add_zero]
    exact clampR_of_mem (hin i).1 (hin i).2

/-- C4 witness: with the processor disabled the displayed texture is the
original image with no halation, and the strength-0 upsample-blend leaves a
concrete mid-gray pixel unchanged. -/
theorem halation_noop_witness :
    usesHalation DisplayTex.original = false ∧
    upsampleBlendPixel (fun _ => 1/2) (fun _ => 1)
      ({ enabled := false, strength := 0, threshold := 4/5, radius := 20 } :
        HalationParamsU).strength = (fun _ => (1/2 : ℝ)) := by
  refine ⟨?_, ?_⟩
  · exact (halation_noop ⟨false, true, true, false, true, true, true⟩
      ⟨false, 0, 4/5, 20⟩ .original (fun _ => 1/2) (fun _ => 1)).1 rfl rfl
  · exact (halation_noop ⟨false, true, true, false, true, true, true⟩
      ⟨false, 0, 4/5, 20⟩ .original (fun _ => 1/2) (fun _ => 1)).2 rfl
      (fun i => by norm_num)

/-- The claimed AR weight: 0.7 to the Euclidean distance of the offset. -/
noncomputable def specARWeight (dx dy : ℤ) : ℝ :=
  (0.7 : ℝ) ^ Real.sqrt ((dx : ℝ) ^ 2 + (dy : ℝ) ^ 2)

/-- The claimed causal neighbor sum S: over offsets with dy < 0, or dy = 0
and dx < 0, within the lag radius, of the edge-clamped input sample times
the claimed weight. -/
noncomputable def specNeighborSum (input : Tex) (w h lag : ℕ) (x y : ℕ)
    (i : Fin 3) : ℝ :=
  ∑ dy ∈ Finset.Icc (-(lag : ℤ)) lag, ∑ dx ∈ Finset.Icc (-(lag : ℤ)) lag,
    if dy < 0 ∨ (dy = 0 ∧ dx < 0) then
      loadClamped input w h ((x : ℤ) + dx) ((y : ℤ) + dy) i * specARWeight dx dy
    else 0

/-- The claimed weight sum W: the same weights over the same causal set. -/
noncomputable def specWeightSum (lag : ℕ) : ℝ :=
  ∑ dy ∈ Finset.Icc (-(lag : ℤ)) lag, ∑ dx ∈ Finset.Icc (-(lag : ℤ)) lag,
    if dy < 0 ∨ (dy = 0 ∧ dx < 0) then specARWeight dx dy else 0

lemma specARWeight_pos (dx dy : ℤ) : 0 < specARWeight dx dy :=
  Real.rpow_pos_of_pos (by norm_num) _

lemma get_ar_weight_eq {dx dy lag : ℤ} (hx : |dx| ≤ lag) (hy : |dy| ≤ lag) :
    get_ar_weight dx dy lag =
      if dy < 0 ∨ (dy = 0 ∧ dx < 0) then specARWeight dx dy else 0 := by
  unfold get_ar_weight
  rw [if_neg (by push_neg; exact ⟨hx, hy⟩)]
  rcases lt_trichotomy dy 0 with hdy | hdy | hdy
  · rw [if_neg (by omega), if_neg (by rintro ⟨e, _⟩; omega), if_pos (Or.inl hdy)]
    unfold specARWeight
    congr 2
    push_cast
    ring
  · subst hdy
    by_cases hdx : dx < 0
    · rw [if_neg (by omega), if_neg (by rintro ⟨_, e⟩; omega),
        if_pos (Or.inr ⟨rfl, hdx⟩)]
      unfold specARWeight
      congr 2
      push_cast
      ring
    · rw [if_neg (by omega), if_pos ⟨rfl, not_lt.mp hdx⟩, if_neg (by omega)]
  · rw [if_pos hdy, if_neg (by omega)]

lemma ite_pos_ite {c : Prop} [Decidable c] {s : ℝ} (hs : 0 < s) :
    (if 0 < (if c then s else 0) then (if c then s else 0) else 0) =
      if c then s else 0 := by
  by_cases h : c <;> simp [h, hs]

lemma ite_pos_ite_mul {c : Prop} [Decidable c] {s a : ℝ} (hs : 0 < s) :
    (if 0 < (if c then s else 0) then a * (if c then s else 0) else 0) =
      if c then a * s else 0 := by
  by_cases h : c <;> simp [h, hs]

lemma arWeightSum_eq_spec (lag : ℕ) : arWeightSum lag = specWeightSum lag := by
  unfold arWeightSum specWeightSum
  refine Finset.sum_congr rfl fun dy hdy => Finset.sum_congr rfl fun dx hdx => ?_
  rw [Finset.mem_Icc] at hdy hdx
  rw [get_ar_weight_eq (abs_le.mpr hdx) (abs_le.mpr hdy)]
  exact ite_pos_ite (specARWeight_pos dx dy)

lemma arNeighborSum_eq_spec (input : Tex) (w h lag x y : ℕ) (i : Fin 3) :
    arNeighborSum input w h lag x y i = specNeighborSum input w h lag x y i := by
  unfold arNeighborSum specNeighborSum
  refine Finset.sum_congr rfl fun dy hdy => Finset.sum_congr rfl fun dx hdx => ?_
  rw [Finset.mem_Icc] at hdy hdx
  rw [get_ar_weight_eq (abs_le.mpr hdx) (abs_le.mpr hdy)]
  exact ite_pos_ite_mul (specARWeight_pos dx dy)

lemma specWeightSum_ge (lag : ℕ) (hlag : 1 ≤ lag) : 0.7 ≤ specWeightSum lag := by
  have hterm : ∀ dy dx : ℤ,
      (0 : ℝ) ≤ if dy < 0 ∨ (dy = 0 ∧ dx < 0) then specARWeight dx dy else 0 := by
    intro dy dx
    split
    · exact le_of_lt (specARWeight_pos dx dy)
    · exact le_refl 0
  have hval : ((if (0 : ℤ) < 0 ∨ ((0 : ℤ) = 0 ∧ (-1 : ℤ) < 0) then
      specARWeight (-1) 0 else 0) : ℝ) = 0.7 := by
    rw [if_pos (Or.inr ⟨rfl, by norm_num⟩)]
    unfold specARWeight
    norm_num
  have hmem1 : (-1 : ℤ) ∈ Finset.Icc (-(lag : ℤ)) lag := by
    rw [Finset.mem_Icc]
    omega
  have hmem0 : (0 : ℤ) ∈ Finset.Icc (-(lag : ℤ)) lag := by
    rw [Finset.mem_Icc]
    omega
  have hinner : (0.7 : ℝ) ≤
      ∑ dx ∈ Finset.Icc (-(lag : ℤ)) lag,
        if (0 : ℤ) < 0 ∨ ((0 : ℤ) = 0 ∧ dx < 0) then specARWeight dx 0 else 0 := by
    rw [← hval]
    exact Finset.single_le_sum (fun dx _ => hterm 0 dx) hmem1
  refine le_trans hinner ?_
  exact Finset.single_le_sum
    (fun dy _ => Finset.sum_nonneg fun dx _ => hterm dy dx) hmem0

/-- C6: with strength 0.95 and lag at least 1 the AR filter pass output is
S * (0.95 / W) + original * sqrt(1 - 0.95^2), where S and W are the claimed
causal sums; the max(W, 0.001) guard of the shader is inactive because W is
at least 0.7. -/
theorem ar_filter_formula (input : Tex) (w h : ℕ) (lag : ℕ) (x y : ℕ)
    (i : Fin 3) (hlag : 1 ≤ lag) :
    arFilterPixel input w h 0.95 lag x y i =
      specNeighborSum input w h lag x y i * (0.95 / specWeightSum lag)
        + input x y i * Real.sqrt (1 - 0.95 ^ 2) := by
  have hmax : max (arWeightSum lag) 0.001 = specWeightSum lag := by
    rw [arWeightSum_eq_spec]
    exact max_eq_left (le_trans (by norm_num) (specWeightSum_ge lag hlag))
  have hsq : (1 : ℝ) - 0.95 * 0.95 = 1 - 0.95 ^ 2 := by ring
  unfold arFilterPixel
  rw [arNeighborSum_eq_spec, hmax, hsq]

/-- C6 witness: the AR formula instantiated on a concrete constant input
texture with lag 2 at pixel (3, 4). -/
theorem ar_filter_formula_witness :
    arFilterPixel (fun _ _ => fun _ => 1) 256 256 0.95 2 3 4 0 =
      specNeighborSum (fun _ _ => fun _ => 1) 256 256 2 3 4 0
        * (0.95 / specWeightSum 2)
        + (fun _ _ => fun _ => (1 : ℝ)) 3 4 0 * Real.sqrt (1 - 0.95 ^ 2) := by
  exact ar_filter_formula (fun _ _ => fun _ => 1) 256 256 2 3 4 0 (by norm_num)

lemma halveMax (a : ℕ) : max 1 (max 1 a / 2) = max 1 (a / 2) := by
  cases a with
  | zero => decide
  | succ a => rw [Nat.max_eq_right (Nat.succ_le_succ (Nat.zero_le a))]

lemma mipDims_closed (w h : ℕ) (hw : 1 ≤ w) (hh : 1 ≤ h) (n : ℕ) :
    mipDims w h n = (max 1 (w / 2 ^ n), max 1 (h / 2 ^ n)) := by
  induction n with
  | zero =>
    simp only [mipDims, pow_zero, Nat.div_one]
    rw [Nat.max_eq_right hw, Nat.max_eq_right hh]
  | succ n ih =>
    rw [mipDims, ih]
    have ew : max 1 (w / 2 ^ n) / 2 = max 1 (w / 2 ^ n) / 2 := rfl
    simp only []
    rw [halveMax, halveMax, Nat.div_div_eq_div_mul, Nat.div_div_eq_div_mul,
      ← pow_succ]

lemma mipLevelCount_eq_log2 (w h : ℕ) (hw : 1 ≤ w) (hh : 1 ≤ h) :
    mipLevelCount w h = Nat.log2 (max w h) + 1 := by
  unfold mipLevelCount
  have hcast : ((2 : ℕ) : ℝ) = (2 : ℝ) := by norm_num
  have h1 : ⌊Real.logb ((2 : ℕ) : ℝ) ((max w h : ℕ) : ℝ)⌋ = Int.log 2 ((max w h : ℕ) : ℝ) :=
    Real.floor_logb_natCast (Nat.cast_nonneg _)
  rw [← hcast, h1, Int.log_natCast]
  rw [Nat.log2_eq_log_two]
  omega

lemma div_pow_log_le_one (w m : ℕ) (hwm : w ≤ m) (hm : 1 ≤ m) :
    w / 2 ^ Nat.log 2 m ≤ 1 := by
  have hlt : m < 2 ^ (Nat.log 2 m + 1) :=
    Nat.lt_pow_succ_log_self (by norm_num) m
  have hpos : 0 < 2 ^ Nat.log 2 m := Nat.pos_pow_of_pos _ (by norm_num)
  have hlt2 : w / 2 ^ Nat.log 2 m < 2 := by
    rw [Nat.div_lt_iff_lt_mul hpos]
    calc w ≤ m := hwm
    _ < 2 ^ (Nat.log 2 m + 1) := hlt
    _ = 2 * 2 ^ Nat.log 2 m := by rw [pow_succ]; ring
  omega

lemma mipDims_last (w h : ℕ) (hw : 1 ≤ w) (hh : 1 ≤ h) :
    mipDims w h (Nat.log2 (max w h)) = (1, 1) := by
  rw [mipDims_closed w h hw hh, Nat.log2_eq_log_two]
  have hm : 1 ≤ max w h := le_trans hw (le_max_left _ _)
  have h1 : w / 2 ^ Nat.log 2 (max w h) ≤ 1 :=
    div_pow_log_le_one w (max w h) (le_max_left _ _) hm
  have h2 : h / 2 ^ Nat.log 2 (max w h) ≤ 1 :=
    div_pow_log_le_one h (max w h) (le_max_right _ _) hm
  rw [Nat.max_eq_left h1, Nat.max_eq_left h2]

/-- C9: for a w-by-h image (w, h at least 1) the mip chain has exactly
floor(log2(max(w,h))) + 1 levels (equivalently Nat.log2(max w h) + 1, and
the last level is 1x1), each level's dimensions are the previous halved
(floored, minimum 1) with closed form max(1, w / 2^n), and each mip texel is
the average of the 2x2 source block at twice its coordinates. -/
theorem mipmap_chain (w h n : ℕ) (src : ℕ → ℕ → Vec4) (x y : ℕ) (c : Fin 4)
    (hw : 1 ≤ w) (hh : 1 ≤ h) :
    mipLevelCount w h = Nat.log2 (max w h) + 1 ∧
    mipDims w h (n + 1) =
      (max 1 ((mipDims w h n).1 / 2), max 1 ((mipDims w h n).2 / 2)) ∧
    mipDims w h n = (max 1 (w / 2 ^ n), max 1 (h / 2 ^ n)) ∧
    mipDims w h (mipLevelCount w h - 1) = (1, 1) ∧
    mipPixel src x y c =
      (src (2 * x) (2 * y) c + src (2 * x + 1) (2 * y) c
        + src (2 * x) (2 * y + 1) c + src (2 * x + 1) (2 * y + 1) c) / 4 := by
  refine ⟨mipLevelCount_eq_log2 w h hw hh, rfl, mipDims_closed w h hw hh n, ?_, ?_⟩
  · rw [mipLevelCount_eq_log2 w h hw hh, Nat.add_sub_cancel]
    exact mipDims_last w h hw hh
  · unfold mipPixel
    ring

/-- C9 witness: the mipmap theorem applied to a 640 x 480 image at level 2
and a concrete constant source texture. -/
theorem mipmap_chain_witness :
    mipLevelCount 640 480 = Nat.log2 (max 640 480) + 1 ∧
    mipDims 640 480 (2 + 1) =
      (max 1 ((mipDims 640 480 2).1 / 2), max 1 ((mipDims 640 480 2).2 / 2)) ∧
    mipDims 640 480 2 = (max 1 (640 / 2 ^ 2), max 1 (480 / 2 ^ 2)) ∧
    mipDims 640 480 (mipLevelCount 640 480 - 1) = (1, 1) ∧
    mipPixel (fun _ _ => fun _ => 1) 5 6 0 =
      ((fun _ _ => fun _ => (1 : ℝ)) (2 * 5) (2 * 6) 0
        + (fun _ _ => fun _ => (1 : ℝ)) (2 * 5 + 1) (2 * 6) 0
        + (fun _ _ => fun _ => (1 : ℝ)) (2 * 5) (2 * 6 + 1) 0
        + (fun _ _ => fun _ => (1 : ℝ)) (2 * 5 + 1) (2 * 6 + 1) 0) / 4 := by
  exact mipmap_chain 640 480 2 (fun _ _ => fun _ => 1) 5 6 0 (by norm_num) (by norm_num)

lemma smoothstepR_nonneg (e1 x : ℝ) : 0 ≤ smoothstepR 0 e1 x := by
  unfold smoothstepR clampR
  set t := min (max ((x - 0) / (e1 - 0)) 0) 1 with ht
  have h0 : 0 ≤ t := le_min (le_max_right _ _) zero_le_one
  have h1 : t ≤ 1 := min_le_right _ _
  have h3 : 0 ≤ 3 - 2 * t := by linarith
  exact mul_nonneg (mul_nonneg h0 h0) h3

lemma smoothstepR_sat (e1 x : ℝ) (he : 0 < e1) (hx : e1 ≤ x) :
    smoothstepR 0 e1 x = 1 := by
  unfold smoothstepR clampR
  have hv : 1 ≤ (x - 0) / (e1 - 0) := by
    rw [sub_zero, sub_zero, le_div_iff he]
    linarith
  have ht : min (max ((x - 0) / (e1 - 0)) 0) 1 = 1 :=
    min_eq_right (le_trans hv (le_max_left _ _))
  rw [ht]
  ring

lemma blend_weight_nonneg (sp : ℝ × ℝ) (rx ry : ℤ) (bs : ℝ) :
    0 ≤ blend_weight sp rx ry bs := by
  unfold blend_weight
  exact mul_nonneg (smoothstepR_nonneg _ _) (smoothstepR_nonneg _ _)

lemma floor_center_bound (u : ℝ) :
    |u - ((⌊u / 512⌋ : ℝ) + 0.5) * 512| ≤ 256 := by
  have h1 : (⌊u / 512⌋ : ℝ) ≤ u / 512 := Int.floor_le _
  have h2 : u / 512 < ⌊u / 512⌋ + 1 := Int.lt_floor_add_one _
  rw [abs_le]
  constructor <;> nlinarith

lemma blend_weight_own (sp : ℝ × ℝ) (bs : ℝ) (hbs : 0 < bs) :
    blend_weight sp ⌊sp.1 / 512⌋ ⌊sp.2 / 512⌋ bs = 1 := by
  simp only [blend_weight]
  have e1 : bs ≤ 512 * 0.5 + bs - |sp.1 - ((⌊sp.1 / 512⌋ : ℝ) + 0.5) * 512| := by
    have := floor_center_bound sp.1
    norm_num at this ⊢
    linarith
  have e2 : bs ≤ 512 * 0.5 + bs - |sp.2 - ((⌊sp.2 / 512⌋ : ℝ) + 0.5) * 512| := by
    have := floor_center_bound sp.2
    norm_num at this ⊢
    linarith
  rw [smoothstepR_sat _ _ hbs e1, smoothstepR_sat _ _ hbs e2]
  ring

lemma accWeight_ge_one (p : BlendParamsU) (pos : ℝ × ℝ)
    (hg : 0 < p.grain_size) : 1 ≤ accWeight p pos := by
  have hbs : 0 < 64 / p.grain_size := div_pos (by norm_num) hg
  simp only [accWeight]
  have hterm : ∀ dy dx : ℤ, (0 : ℝ) ≤
      (if blend_weight (scaledPos p pos) (⌊(scaledPos p pos).1 / 512⌋ + dx)
          (⌊(scaledPos p pos).2 / 512⌋ + dy) (64 / p.grain_size) > 0.001 then
        blend_weight (scaledPos p pos) (⌊(scaledPos p pos).1 / 512⌋ + dx)
          (⌊(scaledPos p pos).2 / 512⌋ + dy) (64 / p.grain_size)
      else 0) := by
    intro dy dx
    split
    · exact blend_weight_nonneg _ _ _ _
    · exact le_refl 0
  have hown : (if blend_weight (scaledPos p pos) (⌊(scaledPos p pos).1 / 512⌋ + 0)
      (⌊(scaledPos p pos).2 / 512⌋ + 0) (64 / p.grain_size) > 0.001 then
        blend_weight (scaledPos p pos) (⌊(scaledPos p pos).1 / 512⌋ + 0)
          (⌊(scaledPos p pos).2 / 512⌋ + 0) (64 / p.grain_size)
      else 0) = 1 := by
    rw [add_zero, add_zero, blend_weight_own _ _ hbs]
    norm_num
  have hmem : (0 : ℤ) ∈ Finset.Icc (-1 : ℤ) 1 := by decide
  have hinner : (1 : ℝ) ≤
      ∑ dx ∈ Finset.Icc (-1 : ℤ) 1,
        (if blend_weight (scaledPos p pos) (⌊(scaledPos p pos).1 / 512⌋ + dx)
            (⌊(scaledPos p pos).2 / 512⌋ + 0) (64 / p.grain_size) > 0.001 then
          blend_weight (scaledPos p pos) (⌊(scaledPos p pos).1 / 512⌋ + dx)
            (⌊(scaledPos p pos).2 / 512⌋ + 0) (64 / p.grain_size)
        else 0) := by
    rw [← hown]
    exact Finset.single_le_sum (fun dx _ => hterm 0 dx) hmem
  refine le_trans hinner ?_
  exact Finset.single_le_sum
    (fun dy _ => Finset.sum_nonneg fun dx _ => hterm dy dx) hmem

/-- C10: the neutral-grain fallback of the seam-blended patchwork sampler is
unreachable: for every position and grain_size above 0 the accumulated blend
weight over the 3x3 neighborhood is at least 1 (the pixel's own region
weighs exactly 1), so the sampler always returns the weight-normalized
accumulated grain. -/
theorem patchwork_no_fallback (tiles : TileSet) (p : BlendParamsU)
    (pos : ℝ × ℝ) (i : Fin 3) (hg : 0 < p.grain_size) :
    1 ≤ accWeight p pos ∧
    sample_grain_patchwork tiles p pos i = accGrain tiles p pos i / accWeight p pos := by
  have h1 := accWeight_ge_one p pos hg
  refine ⟨h1, ?_⟩
  unfold sample_grain_patchwork
  rw [if_pos (lt_of_lt_of_le zero_lt_one h1)]

/-- C10 witness: the no-fallback theorem at a concrete position and
grain size 2. -/
theorem patchwork_no_fallback_witness :
    1 ≤ accWeight cexBlendParams ((100 : ℝ), (7 : ℝ)) ∧
    sample_grain_patchwork (fun _ _ _ => fun _ => 1) cexBlendParams ((100 : ℝ), (7 : ℝ)) 0 =
      accGrain (fun _ _ _ => fun _ => 1) cexBlendParams ((100 : ℝ), (7 : ℝ)) 0
        / accWeight cexBlendParams ((100 : ℝ), (7 : ℝ)) := by
  exact patchwork_no_fallback (fun _ _ _ => fun _ => 1) cexBlendParams
    ((100 : ℝ), (7 : ℝ)) 0 (by norm_num [cexBlendParams])
